import Mathlib

/-!
Verification of the Reddit scraper's collection pipeline
(`src/unnamed/part_000` together with `src/shared/schema.ts`).

The embedding models the network as explicit environments: the paginated
listing endpoint is a list of page-fetch results (one entry per step of the
`after`-cursor chain), and the per-permalink comment endpoint is a function
from permalinks to fetch results.  All stateful code is translated into pure
functions returning the ordered trace of observable actions (SSE events and
sleeps).
-/

set_option maxHeartbeats 1000000

deriving instance DecidableEq for Except

namespace RedditScraper


/-- Fixed inter-request delay in milliseconds (`DELAY_BETWEEN_REQUESTS`). -/

def DELAY_BETWEEN_REQUESTS : Nat := 2000

/-- Raw post payload as read from a listing child (`child.data`).  Boolean
fields model presence of the corresponding non-null JSON payloads, and
`post_hint` models an optional string field. -/

structure RawPost where
  id : String
  title : String
  selftext : String
  permalink : String
  url : String
  created_utc : Int
  score : Int
  post_hint : Option String
  is_gallery : Bool
  preview : Bool
  media : Bool
deriving DecidableEq

/-- Post record extracted for export (`RedditPost` in shared/schema.ts). -/

structure RedditPost where
  id : String
  title : String
  selftext : String
  permalink : String
  url : String
  created_utc : Int
  score : Int
deriving DecidableEq

/-- Comment record (`RedditComment` in shared/schema.ts). -/

structure RedditComment where
  rank : Nat
  id : String
  body : String
  score : Int
deriving DecidableEq

/-- Media post-type hints checked by `isMediaPost`. -/

def mediaHints : List String := ["image", "hosted:video", "rich:video", "gallery"]

/-- Image url extensions checked by `isMediaPost`. -/

def mediaExtensions : List String := [".jpg", ".jpeg", ".png", ".gif", ".webp"]

/-- Lower-casing of a string, character by character (the effect of
`url.toLowerCase()` on the ASCII urls the filter inspects). -/

def lowerChars (s : String) : List Char := s.data.map Char.toLower

/-- Suffix test on strings via their character lists (`String.prototype.endsWith`). -/

def charsEndWith (chars : List Char) (suffixStr : String) : Bool :=
  suffixStr.data.isSuffixOf chars

/-- Predicate `isMediaPost` from the routes module: true when the post hint is a media
hint, the gallery flag is set, the url ends (case-insensitively) with an image
extension, or a non-null preview or media payload is present. -/

def isMediaPost (post : RawPost) : Bool :=
  (match post.post_hint with
   | some h => (h != "") && mediaHints.contains h
   | none => false)
  || post.is_gallery
  || mediaExtensions.any (fun ext => charsEndWith (lowerChars post.url) ext)
  || post.preview
  || post.media

/-- Function `extractPost` from the routes module. -/

def extractPost (postData : RawPost) : RedditPost :=
  { id := postData.id
    title := postData.title
    selftext := postData.selftext
    permalink := postData.permalink
    url := postData.url
    created_utc := postData.created_utc
    score := postData.score }

/-- Raw comment child payload; `body` is optional to model a missing field. -/

structure RawComment where
  id : String
  body : Option String
  score : Int
deriving DecidableEq

/-- One segment of the permalink JSON array (`data.children` inside it). -/

structure CommentSegment where
  children : List RawComment
deriving DecidableEq

/-- Shape of the permalink endpoint's JSON: either not an array at all, or an
array of segments whose second element holds the comment listing. -/

inductive CommentResponse where
  | nonArray
  | array (segments : List CommentSegment)
deriving DecidableEq

/-- Iteration over comment children in `fetchComments`: stop once `limit`
comments are retained, skip children whose body is missing, `"[deleted]"` or
`"[removed]"`, and give each retained comment the next sequential rank. -/

def commentLoop (limit : Nat) :
    List RawComment → List RedditComment → Nat → List RedditComment
  | [], acc, _ => acc
  | child :: rest, acc, rank =>
    if limit ≤ acc.length then acc
    else
      match child.body with
      | none => commentLoop limit rest acc rank
      | some b =>
        if b == "" || b == "[deleted]" || b == "[removed]" then
          commentLoop limit rest acc rank
        else
          commentLoop limit rest
            (acc ++ [{ rank := rank, id := child.id, body := b, score := child.score }])
            (rank + 1)

/-- Function `fetchComments` from the routes module, as a function of the fetched JSON;
the `Except` argument models success or failure of `fetchRedditJSON`. -/

def fetchComments (fetched : Except String CommentResponse) (limit : Nat) :
    Except String (List RedditComment) :=
  match fetched with
  | .error e => .error e
  | .ok .nonArray => .ok []
  | .ok (.array segments) =>
    match segments with
    | _ :: second :: _ => .ok (commentLoop limit second.children [] 1)
    | _ => .ok []

/-- One page of the listing endpoint. -/

structure Page where
  children : List RawPost
deriving DecidableEq

/-- Flat export record (`FlatExportItem` in shared/schema.ts): the fixed
`"Post"` entry plus the dynamically keyed comment entries, kept in insertion
order as key-value pairs. -/

structure FlatExportItem where
  post : String
  kommentare : List (String × String)
deriving DecidableEq

/-- Export record: one entry of the `complete` event's data array. -/

inductive ExportRecord where
  | clean (post : RedditPost) (comments : List RedditComment)
  | flat (item : FlatExportItem)
deriving DecidableEq

/-- Export mode from the validated config. -/

inductive ExportMode where
  | clean
  | flat_labels
deriving DecidableEq

/-- SSE event emitted by the scrape handler.  The three optional counters model
the JSON fields `postsFound`, `postsProcessed` and `commentsCollected`, which
are present only on some progress events. -/

inductive Event where
  | progress (postsFound postsProcessed commentsCollected : Option Nat) (message : String)
  | complete (message : String) (data : List ExportRecord)
  | error (message : String)
deriving DecidableEq

/-- Observable action of a run: an SSE event or a sleep. -/

inductive Action where
  | sse (e : Event)
  | sleep (ms : Nat)
deriving DecidableEq

/-- Progress event sent for each accumulated post inside `fetchPosts`: while
inside the skip window it reports `postsFound = 0` with a skipping message,
afterwards the accumulated count past the skip window. -/

def postProgressEvent (len skip : Nat) : Event :=
  if len ≤ skip then
    .progress (some 0) none none
      ("Skipping posts... (" ++ toString len ++ "/" ++ toString skip ++ ")")
  else
    .progress (some (len - skip)) none none
      ("Found " ++ toString (len - skip) ++ " text posts (skipped " ++ toString skip ++ ")...")

/-- Inner `for` loop of `fetchPosts` over one page's children: append each
non-media post, emit one progress event per append, and break out once
`totalNeeded` posts are accumulated. -/

def processChildren (totalNeeded skip : Nat) :
    List RawPost → List RedditPost → List RedditPost × List Event
  | [], allPosts => (allPosts, [])
  | child :: rest, allPosts =>
    if isMediaPost child then processChildren totalNeeded skip rest allPosts
    else
      let allPosts' := allPosts ++ [extractPost child]
      let ev := postProgressEvent allPosts'.length skip
      if totalNeeded ≤ allPosts'.length then (allPosts', [ev])
      else
        let r := processChildren totalNeeded skip rest allPosts'
        (r.1, ev :: r.2)

/-- Page-fetch `while` loop of `fetchPosts`: while fewer than `totalNeeded`
posts are accumulated and fewer than 100 fetch attempts were made, fetch the
next page of the cursor chain (a failing fetch propagates its error), break on
an empty page or an absent `after` cursor, and sleep between page fetches. -/

def fetchPostsGo (totalNeeded skip : Nat) :
    List (Except String Page) → Nat → List RedditPost →
    List Action × Except String (List RedditPost)
  | pages, attempts, allPosts =>
    if allPosts.length < totalNeeded ∧ attempts < 100 then
      match pages with
      | [] => ([], .ok allPosts)
      | .error e :: _ => ([], .error e)
      | .ok page :: rest =>
        if page.children = [] then ([], .ok allPosts)
        else
          let pr := processChildren totalNeeded skip page.children allPosts
          if rest.isEmpty then (pr.2.map .sse, .ok pr.1)
          else
            let r := fetchPostsGo totalNeeded skip rest (attempts + 1) pr.1
            (pr.2.map .sse ++ Action.sleep DELAY_BETWEEN_REQUESTS :: r.1, r.2)
    else ([], .ok allPosts)

/-- Function `fetchPosts` from the routes module: accumulate qualifying posts across
pages with `totalNeeded = skipCount + targetCount`, then return the
accumulation sliced from `skipCount` to `skipCount + targetCount`. -/

def fetchPosts (pages : List (Except String Page)) (targetCount skipCount : Nat) :
    List Action × Except String (List RedditPost) :=
  let r := fetchPostsGo (skipCount + targetCount) skipCount pages 0 []
  (r.1, r.2.map (fun allPosts => (allPosts.drop skipCount).take targetCount))

/-- Flat-mode record built in the orchestrator: the `Post` entry holds the
title, or title and body separated by a blank line when the body is non-empty;
one `Kommentar N` entry is added per comment, in order. -/

def flatShape (post : RedditPost) (comments : List RedditComment) : FlatExportItem :=
  { post := if post.selftext = "" then post.title
            else post.title ++ "\n\n" ++ post.selftext
    kommentare := comments.enum.map
      (fun ic => ("Kommentar " ++ toString (ic.1 + 1), ic.2.body)) }

/-- Keys of a flat export record, in insertion order. -/

def flatKeys (item : FlatExportItem) : List String :=
  "Post" :: item.kommentare.map Prod.fst

/-- Shaping of one post with its comments into an export record. -/

def shapeRecord (mode : ExportMode) (post : RedditPost) (comments : List RedditComment) :
    ExportRecord :=
  match mode with
  | .clean => .clean post comments
  | .flat_labels => .flat (flatShape post comments)

/-- Validated scrape configuration (`scrapeConfigSchema` output). -/

structure ScrapeConfig where
  subreddit : String
  postCount : Nat
  skipPosts : Nat
  commentsPerPost : Nat
  sortBy : String
  exportMode : ExportMode
deriving DecidableEq

/-- Per-post loop of the `/api/scrape` handler: emit a progress event, attempt
the comment fetch, and on success accumulate the comment total, append the
shaped record and sleep; on failure skip to the next post. -/

def scrapeGo (cfg : ScrapeConfig) (commentEnv : String → Except String CommentResponse)
    (n : Nat) : List RedditPost → Nat → Nat → List Action × List ExportRecord × Nat
  | [], _, totalComments => ([], [], totalComments)
  | post :: rest, i, totalComments =>
    let prog := Action.sse (.progress (some n) (some i) (some totalComments)
      ("Processing post " ++ toString (i + 1) ++ "/" ++ toString n ++ "..."))
    match fetchComments (commentEnv post.permalink) cfg.commentsPerPost with
    | .error _ =>
      let r := scrapeGo cfg commentEnv n rest (i + 1) totalComments
      (prog :: r.1, r.2)
    | .ok comments =>
      let r := scrapeGo cfg commentEnv n rest (i + 1) (totalComments + comments.length)
      (prog :: Action.sleep DELAY_BETWEEN_REQUESTS :: r.1,
       shapeRecord cfg.exportMode post comments :: r.2.1, r.2.2)

/-- Initial progress event of the handler, noting skip behavior when
`skipPosts > 0`. -/

def initialProgress (cfg : ScrapeConfig) : Action :=
  Action.sse (.progress (some 0) (some 0) (some 0)
    (if 0 < cfg.skipPosts then
      "Fetching posts (will skip first " ++ toString cfg.skipPosts ++ ")..."
    else "Fetching posts..."))

/-- Body of the `/api/scrape` route after successful config validation, as a
function of the listing pages and the per-permalink comment responses.  The
result is the ordered trace of emitted SSE events and sleeps. -/

def scrapeHandler (cfg : ScrapeConfig) (pages : List (Except String Page))
    (commentEnv : String → Except String CommentResponse) : List Action :=
  let initProgress := initialProgress cfg
  let fp := fetchPosts pages cfg.postCount cfg.skipPosts
  match fp.2 with
  | .error e => initProgress :: fp.1 ++ [Action.sse (.error e)]
  | .ok posts =>
    if posts = [] then
      initProgress :: fp.1 ++ [Action.sse (.error "No text posts found in this subreddit.")]
    else
      let lp := scrapeGo cfg commentEnv posts.length posts 0 0
      let finalMsg := if posts.length < cfg.postCount then
          "Complete! Found " ++ toString posts.length ++ " text posts (target was "
            ++ toString cfg.postCount ++ ")."
        else
          "Complete! Collected " ++ toString posts.length ++ " posts with "
            ++ toString lp.2.2 ++ " comments."
      initProgress :: fp.1 ++ lp.1 ++
        [Action.sse (.progress (some posts.length) (some posts.length) (some lp.2.2)
           "Finalizing..."),
         Action.sse (.complete finalMsg lp.2.1)]

/-- Outcome of one underlying HTTP fetch attempt. -/

inductive FetchOutcome where
  | ok (body : String)
  | httpStatus (code : Nat)
  | netErr (message : String)
deriving DecidableEq

/-- Error message thrown when rate limiting persists past the retry budget. -/

def rateLimitedMsg : String :=
  "Rate limited by Reddit. Please wait a few minutes and try again."

/-- Error message recorded on HTTP 403. -/

def blockedMsg : String :=
  "Reddit is blocking requests from this server. This is a known limitation when running from cloud environments. The app works correctly when run locally."

/-- Error message thrown for any other HTTP status. -/

def apiErrorMsg (status : Nat) : String := "Reddit API error: " ++ toString status

/-- Substring test on character lists (`String.prototype.includes`). -/

def containsChars : List Char → List Char → Bool
  | l, pat =>
    if pat.isPrefixOf l then true
    else
      match l with
      | [] => false
      | _ :: t => containsChars t pat

/-- Message sniffing in `fetchRedditJSON`'s catch block: errors whose message
mentions Reddit end the attempts against the current host. -/

def mentionsReddit (msg : String) : Bool := containsChars msg.data "Reddit".data

/-- Attempt loop of `fetchRedditJSON` for one host.  `left` counts the retries
still available (initially the retry budget); the returned trace lists the
attempt indices actually performed against this host. -/

def tryHostGo (host : Nat → FetchOutcome) :
    Nat → Nat → List Nat × Except String String
  | attempt, left =>
    match host attempt with
    | .ok v => ([attempt], .ok v)
    | .httpStatus status =>
      if status = 429 then
        match left with
        | 0 => ([attempt], .error rateLimitedMsg)
        | left' + 1 =>
          let r := tryHostGo host (attempt + 1) left'
          (attempt :: r.1, r.2)
      else if status = 403 then ([attempt], .error blockedMsg)
      else ([attempt], .error (apiErrorMsg status))
    | .netErr m =>
      if mentionsReddit m then ([attempt], .error m)
      else
        match left with
        | 0 => ([attempt], .error m)
        | left' + 1 =>
          let r := tryHostGo host (attempt + 1) left'
          (attempt :: r.1, r.2)

/-- Function `fetchRedditJSON` from the routes module: try the primary host, then the
`old.reddit.com` fallback, each with the per-host attempt loop.  The trace
records every fetch as a (host index, attempt index) pair. -/

def fetchRedditJSON (hostA hostB : Nat → FetchOutcome) (retries : Nat) :
    List (Nat × Nat) × Except String String :=
  let ra := tryHostGo hostA 0 retries
  match ra.2 with
  | .ok v => (ra.1.map (fun a => (0, a)), .ok v)
  | .error _ =>
    let rb := tryHostGo hostB 0 retries
    (ra.1.map (fun a => (0, a)) ++ rb.1.map (fun a => (1, a)), rb.2)

/-- Terminal events close the stream: `complete` and `error`. -/

def terminalEvent : Event → Bool
  | .complete _ _ => true
  | .error _ => true
  | .progress _ _ _ _ => false

/-- SSE events of a trace, in order. -/

def sseEvents (trace : List Action) : List Event :=
  trace.filterMap (fun a => match a with | .sse e => some e | .sleep _ => none)

/-- The `postsFound` field of an event, when present. -/

def progressFound : Event → Option Nat
  | .progress pf _ _ _ => pf
  | _ => none

/-- Sequence of `postsFound` values carried by the progress events of a trace. -/

def progressFoundVals (trace : List Action) : List Nat :=
  (sseEvents trace).filterMap progressFound

/-- Whether an action is a sleep. -/

def isSleepAction : Action → Bool
  | .sleep _ => true
  | .sse _ => false

/-- All raw posts of a listing environment (children of its ok pages). -/

def allChildren (pages : List (Except String Page)) : List RawPost :=
  pages.flatMap (fun p => match p with | .ok page => page.children | .error _ => [])

/-- Well-formed page-fetch result: a successful fetch with a non-empty page. -/

def pageOk : Except String Page → Bool
  | .ok page => !page.children.isEmpty
  | .error _ => false

/-- Qualifying (non-media) posts of a listing, in listing order, extracted. -/

def qualifyingPosts (pages : List (Except String Page)) : List RedditPost :=
  ((allChildren pages).filter (fun c => !isMediaPost c)).map extractPost

/-- Progress values carried by a list of events. -/

def progressValsE (evs : List Event) : List Nat := evs.filterMap progressFound

/-- Identity-relevant payload of a retained comment (everything except rank). -/

def commentPayload (c : RedditComment) : String × String × Int := (c.id, c.body, c.score)

/-- Qualification of a raw comment child: the payload it contributes when its
body is present and not a placeholder, none otherwise. -/

def qualComment (rc : RawComment) : Option (String × String × Int) :=
  match rc.body with
  | none => none
  | some b =>
    if b == "" || b == "[deleted]" || b == "[removed]" then none
    else some (rc.id, b, rc.score)

/-- Comments retrieved for a post when its comment fetch succeeds. -/

def okCommentsOpt (commentEnv : String → Except String CommentResponse) (limit : Nat)
    (post : RedditPost) : Option (List RedditComment) :=
  match fetchComments (commentEnv post.permalink) limit with
  | .ok comments => some comments
  | .error _ => none

/-- Initial progress event carried by `initialProgress`. -/

def initialProgressEvent (cfg : ScrapeConfig) : Event :=
  .progress (some 0) (some 0) (some 0)
    (if 0 < cfg.skipPosts then
      "Fetching posts (will skip first " ++ toString cfg.skipPosts ++ ")..."
    else "Fetching posts...")

/-- Sample text (non-media) raw post used by the concrete counterexamples. -/

def sampleTextPost : RawPost :=
  { id := "t1", title := "T", selftext := "B", permalink := "/r/x/1", url := "http://x",
    created_utc := 0, score := 1, post_hint := none, is_gallery := false,
    preview := false, media := false }

/-- Pathological listing: 101 one-post pages, exceeding the 100-fetch cap. -/

def cappedPages : List (Except String Page) :=
  List.replicate 101 (.ok ⟨[sampleTextPost]⟩)

/-- Children of the comment listing segment a response carries (empty when the
structural shape lacks a second segment). -/

def respChildren : CommentResponse → List RawComment
  | .nonArray => []
  | .array segments =>
    match segments with
    | _ :: second :: _ => second.children
    | _ => []

/-- Structural check of `fetchComments`: true when the response is not an
array of at least two segments. -/

def lacksCommentListing : CommentResponse → Bool
  | .nonArray => true
  | .array segments => decide (segments.length < 2)

/-- Concrete post and comment for the flat-export key counterexample. -/

def samplePost : RedditPost :=
  { id := "p1", title := "Title", selftext := "Body", permalink := "/r/x/p1", url := "u",
    created_utc := 0, score := 0 }

def sampleComment : RedditComment := { rank := 1, id := "c1", body := "hello", score := 2 }

/-- Configuration and environment where a post's comment fetch fails. -/

def failCfg : ScrapeConfig :=
  { subreddit := "de", postCount := 1, skipPosts := 0, commentsPerPost := 5,
    sortBy := "top", exportMode := .clean }

def failPages : List (Except String Page) := [.ok ⟨[sampleTextPost]⟩]

def failCommentEnv : String → Except String CommentResponse :=
  fun _ => .error "Reddit API error: 403"

/-- Parametrized text post fixture. -/

def textPost (i : String) : RawPost :=
  { id := i, title := "T" ++ i, selftext := "B" ++ i, permalink := "/r/x/" ++ i,
    url := "http://x/" ++ i, created_utc := 0, score := 1, post_hint := none,
    is_gallery := false, preview := false, media := false }

/-- Media post fixture (image url, case-insensitive extension). -/

def sampleMediaPost : RawPost :=
  { id := "m", title := "M", selftext := "", permalink := "/r/x/m", url := "http://x/a.JPG",
    created_utc := 0, score := 1, post_hint := none, is_gallery := false,
    preview := false, media := false }

/-- One-page listing with three text posts and one media post. -/

def witnessPages : List (Except String Page) :=
  [.ok ⟨[textPost "a", sampleMediaPost, textPost "b", textPost "c"]⟩]

/-- Comment response fixture with deleted, removed and missing bodies. -/

def sampleResponse : CommentResponse :=
  .array [⟨[]⟩, ⟨[⟨"c1", some "hello", 5⟩, ⟨"c2", some "[deleted]", 1⟩,
    ⟨"c3", none, 0⟩, ⟨"c4", some "world", 2⟩, ⟨"c5", some "extra", 2⟩]⟩]

theorem progressFound_postProgressEvent (len skip : Nat) :
    progressFound (postProgressEvent len skip) = some (len - skip) := by
  unfold postProgressEvent
  split
  · have : len - skip = 0 := by omega
    simp [progressFound, this]
  · simp [progressFound]

theorem terminalEvent_postProgressEvent (len skip : Nat) :
    terminalEvent (postProgressEvent len skip) = false := by
  unfold postProgressEvent
  split <;> rfl

theorem processChildren_fst (tn skip : Nat) (children : List RawPost) :
    ∀ acc : List RedditPost, acc.length < tn →
      (processChildren tn skip children acc).1 =
        acc ++ ((children.filter (fun c => !isMediaPost c)).map extractPost).take (tn - acc.length) := by
  induction children with
  | nil => intro acc h; simp [processChildren]
  | cons c rest ih =>
    intro acc h
    by_cases hm : isMediaPost c
    · simpa [processChildren, hm, List.filter_cons] using ih acc h
    · by_cases hstop : tn ≤ acc.length + 1
      · have h1 : tn - acc.length = 1 := by omega
        simp [processChildren, hm, hstop, List.filter_cons, h1]
      · have h1 : (acc ++ [extractPost c]).length < tn := by
          simp; omega
        have h2 : tn - acc.length = (tn - (acc.length + 1)) + 1 := by omega
        simp only [processChildren, hm, Bool.false_eq_true, if_false, List.length_append,
          List.length_cons, List.length_nil, Nat.zero_add, hstop, if_neg, ite_false,
          List.filter_cons]
        rw [ih (acc ++ [extractPost c]) h1]
        simp [h2, List.take_succ_cons, List.append_assoc, hm]

theorem processChildren_le_length (tn skip : Nat) (children : List RawPost)
    (acc : List RedditPost) (h : acc.length < tn) :
    acc.length ≤ (processChildren tn skip children acc).1.length ∧
      (processChildren tn skip children acc).1.length ≤ tn := by
  rw [processChildren_fst tn skip children acc h]
  constructor
  · simp
  · simp only [List.length_append]
    have := List.length_take_le (tn - acc.length)
      ((children.filter (fun c => !isMediaPost c)).map extractPost)
    omega

theorem processChildren_events (tn skip : Nat) (children : List RawPost) :
    ∀ acc : List RedditPost, acc.length < tn →
      progressValsE (processChildren tn skip children acc).2 =
        (List.range' (acc.length + 1)
          ((processChildren tn skip children acc).1.length - acc.length)).map
          (fun i => i - skip) := by
  induction children with
  | nil => intro acc h; simp [processChildren, progressValsE]
  | cons c rest ih =>
    intro acc h
    by_cases hm : isMediaPost c
    · simpa [processChildren, hm] using ih acc h
    · by_cases hstop : tn ≤ acc.length + 1
      · simp [processChildren, hm, hstop, progressValsE, progressFound_postProgressEvent]
      · have h1 : (acc ++ [extractPost c]).length < tn := by simp; omega
        have hlen := (processChildren_le_length tn skip rest (acc ++ [extractPost c]) h1).1
        simp only [List.length_append, List.length_cons, List.length_nil, Nat.zero_add] at hlen
        simp only [processChildren, hm, Bool.false_eq_true, if_false, List.length_append,
          List.length_cons, List.length_nil, Nat.zero_add, hstop, if_neg, ite_false]
        rw [progressValsE, List.filterMap_cons]
        rw [progressFound_postProgressEvent]
        have := ih (acc ++ [extractPost c]) h1
        rw [progressValsE] at this
        rw [this]
        simp only [List.length_append, List.length_cons, List.length_nil, Nat.zero_add]
        have harr : (processChildren tn skip rest (acc ++ [extractPost c])).1.length - acc.length =
            ((processChildren tn skip rest (acc ++ [extractPost c])).1.length - (acc.length + 1)) + 1 := by
          omega
        rw [harr, List.range'_succ]
        simp

theorem processChildren_nonterminal (tn skip : Nat) (children : List RawPost) :
    ∀ acc : List RedditPost, ∀ e ∈ (processChildren tn skip children acc).2,
      terminalEvent e = false := by
  induction children with
  | nil => intro acc e he; simp [processChildren] at he
  | cons c rest ih =>
    intro acc e he
    by_cases hm : isMediaPost c
    · rw [processChildren] at he
      simp only [hm, if_true] at he
      exact ih acc e he
    · rw [processChildren] at he
      simp only [hm, Bool.false_eq_true, if_false] at he
      by_cases hstop : tn ≤ (acc ++ [extractPost c]).length
      · simp only [hstop, if_pos, List.mem_singleton] at he
        subst he
        exact terminalEvent_postProgressEvent _ _
      · simp only [hstop, if_neg, ite_false, List.mem_cons] at he
        rcases he with he | he
        · subst he; exact terminalEvent_postProgressEvent _ _
        · exact ih (acc ++ [extractPost c]) e he

theorem sseEvents_append (a b : List Action) :
    sseEvents (a ++ b) = sseEvents a ++ sseEvents b := by
  simp [sseEvents, List.filterMap_append]

theorem sseEvents_map_sse (evs : List Event) :
    sseEvents (evs.map Action.sse) = evs := by
  rw [sseEvents, List.filterMap_map]
  exact List.filterMap_some evs

theorem sseEvents_cons_sleep (ms : Nat) (tr : List Action) :
    sseEvents (Action.sleep ms :: tr) = sseEvents tr := by
  simp [sseEvents, List.filterMap_cons]

theorem sseEvents_cons_sse (e : Event) (tr : List Action) :
    sseEvents (Action.sse e :: tr) = e :: sseEvents tr := by
  simp [sseEvents, List.filterMap_cons]

theorem progressFoundVals_eq (tr : List Action) :
    progressFoundVals tr = progressValsE (sseEvents tr) := rfl

theorem progressFoundVals_append (a b : List Action) :
    progressFoundVals (a ++ b) = progressFoundVals a ++ progressFoundVals b := by
  simp [progressFoundVals_eq, sseEvents_append, progressValsE, List.filterMap_append]

theorem progressFoundVals_map_sse (evs : List Event) :
    progressFoundVals (evs.map Action.sse) = progressValsE evs := by
  rw [progressFoundVals_eq, sseEvents_map_sse]

theorem fetchPostsGo_spec (tn skip : Nat) (pages : List (Except String Page)) :
    ∀ (attempts : Nat) (acc : List RedditPost),
      ∃ n, acc.length ≤ n ∧ n ≤ max tn acc.length ∧
        progressFoundVals (fetchPostsGo tn skip pages attempts acc).1 =
          (List.range' (acc.length + 1) (n - acc.length)).map (fun i => i - skip) ∧
        ∀ l, (fetchPostsGo tn skip pages attempts acc).2 = .ok l → l.length = n := by
  induction pages with
  | nil =>
    intro attempts acc
    refine ⟨acc.length, Nat.le_refl _, Nat.le_max_right _ _, ?_, ?_⟩
    · rw [fetchPostsGo]
      split <;> simp [progressFoundVals, sseEvents, progressValsE]
    · intro l hl
      rw [fetchPostsGo] at hl
      split at hl <;> (simp at hl; rw [← hl])
  | cons pg rest ih =>
    intro attempts acc
    by_cases hg : acc.length < tn ∧ attempts < 100
    · cases pg with
      | error e =>
        refine ⟨acc.length, Nat.le_refl _, Nat.le_max_right _ _, ?_, ?_⟩
        · rw [fetchPostsGo]
          simp [hg, progressFoundVals, sseEvents, progressValsE]
        · intro l hl
          rw [fetchPostsGo] at hl
          simp [hg] at hl
      | ok page =>
        by_cases hc : page.children = []
        · refine ⟨acc.length, Nat.le_refl _, Nat.le_max_right _ _, ?_, ?_⟩
          · rw [fetchPostsGo]
            simp [hg, hc, progressFoundVals, sseEvents, progressValsE]
          · intro l hl
            rw [fetchPostsGo] at hl
            simp [hg, hc] at hl
            rw [← hl]
        · have hpc1 := processChildren_fst tn skip page.children acc hg.1
          have hpcl := processChildren_le_length tn skip page.children acc hg.1
          have hpce := processChildren_events tn skip page.children acc hg.1
          by_cases hrest : rest.isEmpty
          · refine ⟨(processChildren tn skip page.children acc).1.length, hpcl.1, ?_, ?_, ?_⟩
            · exact Nat.le_trans hpcl.2 (Nat.le_max_left _ _)
            · rw [fetchPostsGo]
              simp only [hg, and_self, if_true, hc, Bool.false_eq_true, ite_false, if_neg, hrest,
                if_pos, ite_true]
              rw [progressFoundVals_map_sse, hpce]
            · intro l hl
              rw [fetchPostsGo] at hl
              simp only [hg, and_self, if_true, hc, Bool.false_eq_true, ite_false, if_neg, hrest,
                if_pos, ite_true, Except.ok.injEq] at hl
              rw [← hl]
          · obtain ⟨n2, hn2a, hn2b, hn2pv, hn2ok⟩ := ih (attempts + 1)
              (processChildren tn skip page.children acc).1
            refine ⟨n2, Nat.le_trans hpcl.1 hn2a, ?_, ?_, ?_⟩
            · have hmax : max tn (processChildren tn skip page.children acc).1.length = tn :=
                Nat.max_eq_left hpcl.2
              rw [hmax] at hn2b
              exact Nat.le_trans hn2b (Nat.le_max_left _ _)
            · rw [fetchPostsGo]
              simp only [hg, and_self, if_true, hc, Bool.false_eq_true, ite_false, if_neg, hrest,
                if_false]
              rw [progressFoundVals_append]
              rw [progressFoundVals_map_sse, hpce]
              rw [progressFoundVals_eq, sseEvents_cons_sleep, ← progressFoundVals_eq, hn2pv]
              rw [← List.map_append]
              have hstep : (processChildren tn skip page.children acc).1.length + 1 =
                  (acc.length + 1) + ((processChildren tn skip page.children acc).1.length - acc.length) := by
                have := hpcl.1
                omega
              rw [hstep, List.range'_append_1]
              have h3 := hpcl.1
              have h4 := hn2a
              have harith : n2 - (processChildren tn skip page.children acc).1.length +
                  ((processChildren tn skip page.children acc).1.length - acc.length) =
                  n2 - acc.length := by omega
              rw [harith]
            · intro l hl
              apply hn2ok
              rw [fetchPostsGo] at hl
              simp only [hg, and_self, if_true, hc, Bool.false_eq_true, ite_false, if_neg, hrest,
                if_false] at hl
              exact hl
    · refine ⟨acc.length, Nat.le_refl _, Nat.le_max_right _ _, ?_, ?_⟩
      · rw [fetchPostsGo.eq_def]
        simp [hg, progressFoundVals, sseEvents, progressValsE]
      · intro l hl
        rw [fetchPostsGo.eq_def] at hl
        simp [hg] at hl
        rw [← hl]

theorem fetchPostsGo_nonterminal (tn skip : Nat) (pages : List (Except String Page)) :
    ∀ (attempts : Nat) (acc : List RedditPost),
      ∀ e ∈ sseEvents (fetchPostsGo tn skip pages attempts acc).1, terminalEvent e = false := by
  induction pages with
  | nil =>
    intro attempts acc e he
    rw [fetchPostsGo] at he
    split at he <;> simp [sseEvents] at he
  | cons pg rest ih =>
    intro attempts acc e he
    rw [fetchPostsGo.eq_def] at he
    by_cases hg : acc.length < tn ∧ attempts < 100
    · simp only [hg, and_self, if_true] at he
      cases pg with
      | error e2 => simp [sseEvents] at he
      | ok page =>
        by_cases hc : page.children = []
        · simp [hc, sseEvents] at he
        · simp only [hc, Bool.false_eq_true, ite_false, if_neg] at he
          by_cases hrest : rest.isEmpty
          · simp only [hrest, if_pos, ite_true] at he
            rw [sseEvents_map_sse] at he
            exact processChildren_nonterminal tn skip page.children acc e he
          · simp only [hrest, Bool.false_eq_true, ite_false, if_neg] at he
            rw [sseEvents_append, sseEvents_cons_sleep, sseEvents_map_sse] at he
            rcases List.mem_append.1 he with h | h
            · exact processChildren_nonterminal tn skip page.children acc e h
            · exact ih (attempts + 1) (processChildren tn skip page.children acc).1 e h
    · simp [hg, sseEvents] at he

theorem fetchPostsGo_mem (tn skip : Nat) (pages : List (Except String Page)) :
    ∀ (attempts : Nat) (acc : List RedditPost) (l : List RedditPost),
      (fetchPostsGo tn skip pages attempts acc).2 = .ok l →
      ∀ p ∈ l, p ∈ acc ∨ ∃ raw, raw ∈ allChildren pages ∧ isMediaPost raw = false ∧
        p = extractPost raw := by
  induction pages with
  | nil =>
    intro attempts acc l hl p hp
    rw [fetchPostsGo] at hl
    split at hl <;> (simp at hl; subst hl; exact Or.inl hp)
  | cons pg rest ih =>
    intro attempts acc l hl p hp
    by_cases hg : acc.length < tn ∧ attempts < 100
    · rw [fetchPostsGo.eq_def] at hl
      simp only [hg, and_self, if_true] at hl
      cases pg with
      | error e => simp at hl
      | ok page =>
        by_cases hc : page.children = []
        · simp only [hc, if_pos, ite_true, Except.ok.injEq] at hl
          subst hl
          exact Or.inl hp
        · simp only [hc, Bool.false_eq_true, ite_false, if_neg] at hl
          have hmempc : ∀ q ∈ (processChildren tn skip page.children acc).1,
              q ∈ acc ∨ ∃ raw, raw ∈ page.children ∧ isMediaPost raw = false ∧
                q = extractPost raw := by
            intro q hq
            rw [processChildren_fst tn skip page.children acc hg.1] at hq
            rcases List.mem_append.1 hq with h | h
            · exact Or.inl h
            · right
              have h2 := List.take_subset _ _ h
              rcases List.mem_map.1 h2 with ⟨raw, hraw, hqe⟩
              rcases List.mem_filter.1 hraw with ⟨hrawmem, hrawf⟩
              exact ⟨raw, hrawmem, by simpa using hrawf, hqe.symm⟩
          by_cases hrest : rest.isEmpty
          · simp only [hrest, if_pos, ite_true, Except.ok.injEq] at hl
            subst hl
            rcases hmempc p hp with h | ⟨raw, hraw, hrawm, hrawe⟩
            · exact Or.inl h
            · exact Or.inr ⟨raw, by simp [allChildren, hraw], hrawm, hrawe⟩
          · simp only [hrest, Bool.false_eq_true, ite_false, if_neg] at hl
            have := ih (attempts + 1) (processChildren tn skip page.children acc).1 l hl p hp
            rcases this with h | ⟨raw, hraw, hrawm, hrawe⟩
            · rcases hmempc p h with h2 | ⟨raw, hraw, hrawm, hrawe⟩
              · exact Or.inl h2
              · exact Or.inr ⟨raw, by simp [allChildren, hraw], hrawm, hrawe⟩
            · refine Or.inr ⟨raw, ?_, hrawm, hrawe⟩
              simp only [allChildren, List.flatMap_cons, List.mem_append]
              right
              simpa [allChildren] using hraw
    · rw [fetchPostsGo.eq_def] at hl
      simp only [hg, if_neg, ite_false, Except.ok.injEq] at hl
      subst hl
      exact Or.inl hp

theorem fetchPostsGo_wf (tn skip : Nat) (pages : List (Except String Page)) :
    ∀ (attempts : Nat) (acc : List RedditPost),
      (∀ p ∈ pages, pageOk p = true) → attempts + pages.length ≤ 100 →
      (fetchPostsGo tn skip pages attempts acc).2 =
        .ok (acc ++ (((allChildren pages).filter (fun c => !isMediaPost c)).map
          extractPost).take (tn - acc.length)) := by
  induction pages with
  | nil =>
    intro attempts acc _ _
    rw [fetchPostsGo]
    split <;> simp [allChildren]
  | cons pg rest ih =>
    intro attempts acc hok hcap
    by_cases hg : acc.length < tn ∧ attempts < 100
    · have hpgok := hok pg (List.mem_cons_self pg rest)
      cases pg with
      | error e => simp [pageOk] at hpgok
      | ok page =>
        have hc : ¬page.children = [] := by
          simp only [pageOk, Bool.not_eq_eq_eq_not, Bool.not_true] at hpgok
          intro hcon
          simp [hcon] at hpgok
        rw [fetchPostsGo.eq_def]
        simp only [hg, and_self, if_true, hc, Bool.false_eq_true, ite_false, if_neg]
        have hpc1 := processChildren_fst tn skip page.children acc hg.1
        by_cases hrest : rest.isEmpty
        · rw [List.isEmpty_iff] at hrest
          subst hrest
          simp only [if_pos, ite_true, Except.ok.injEq, List.isEmpty_nil]
          rw [hpc1]
          simp [allChildren]
        · simp only [hrest, Bool.false_eq_true, ite_false, if_neg]
          rw [ih (attempts + 1) (processChildren tn skip page.children acc).1
            (fun p hp => hok p (List.mem_cons_of_mem _ hp))
            (by simp at hcap ⊢; omega)]
          rw [hpc1]
          simp only [allChildren, List.flatMap_cons, List.filter_append, List.map_append]
          rw [List.take_append_eq_append_take]
          have harg : tn - (acc ++ ((page.children.filter (fun c => !isMediaPost c)).map
              extractPost).take (tn - acc.length)).length =
              tn - acc.length - ((page.children.filter (fun c => !isMediaPost c)).map
                extractPost).length := by
            simp only [List.length_append, List.length_take, List.length_map]
            omega
          rw [harg]
          simp [List.append_assoc]
    · rw [fetchPostsGo.eq_def]
      simp only [hg, if_neg, ite_false]
      have hatt : attempts < 100 := by
        simp at hcap
        omega
      have hlen : ¬acc.length < tn := fun hcon => hg ⟨hcon, hatt⟩
      have h0 : tn - acc.length = 0 := by omega
      simp [h0]

theorem commentLoop_payload (limit : Nat) (children : List RawComment) :
    ∀ (acc : List RedditComment) (rank : Nat), acc.length ≤ limit →
      (commentLoop limit children acc rank).map commentPayload =
        acc.map commentPayload ++ (children.filterMap qualComment).take (limit - acc.length) := by
  induction children with
  | nil => intro acc rank h; simp [commentLoop]
  | cons c rest ih =>
    intro acc rank h
    by_cases hfull : limit ≤ acc.length
    · have h0 : limit - acc.length = 0 := by omega
      simp [commentLoop, hfull, h0]
    · rw [commentLoop]
      simp only [hfull, if_neg, ite_false]
      match hb : c.body with
      | none => simp [ih acc rank h, List.filterMap_cons, qualComment, hb]
      | some b =>
        by_cases hbad : (b == "" || b == "[deleted]" || b == "[removed]") = true
        · simp only [hbad, if_pos, ite_true]
          simp [ih acc rank h, List.filterMap_cons, qualComment, hb, hbad]
        · simp only [hbad, Bool.false_eq_true, ite_false, if_neg]
          have h1 : (acc ++ [(⟨rank, c.id, b, c.score⟩ : RedditComment)]).length ≤ limit := by
            simp
            omega
          rw [ih _ (rank + 1) h1]
          simp only [List.filterMap_cons, qualComment, hb, hbad, Bool.false_eq_true, ite_false,
            if_neg, List.map_append, List.length_append, List.length_cons, List.length_nil]
          have h2 : limit - acc.length = (limit - (acc.length + 1)) + 1 := by omega
          rw [h2, List.take_succ_cons]
          simp [commentPayload, List.append_assoc]

theorem commentLoop_ranks (limit : Nat) (children : List RawComment) :
    ∀ (acc : List RedditComment), acc.map (fun c => c.rank) = List.range' 1 acc.length →
      (commentLoop limit children acc (acc.length + 1)).map (fun c => c.rank) =
        List.range' 1 (commentLoop limit children acc (acc.length + 1)).length := by
  induction children with
  | nil =>
    intro acc h
    simpa [commentLoop] using h
  | cons c rest ih =>
    intro acc h
    by_cases hfull : limit ≤ acc.length
    · rw [commentLoop]
      simp only [hfull, if_pos, ite_true]
      exact h
    · rw [commentLoop]
      simp only [hfull, if_neg, ite_false]
      match hb : c.body with
      | none => exact ih acc h
      | some b =>
        by_cases hbad : (b == "" || b == "[deleted]" || b == "[removed]") = true
        · simp only [hbad, if_pos, ite_true]
          exact ih acc h
        · simp only [hbad, Bool.false_eq_true, ite_false, if_neg]
          have hlen : (acc ++ [(⟨acc.length + 1, c.id, b, c.score⟩ : RedditComment)]).length =
              acc.length + 1 := by simp
          have hmap : (acc ++ [(⟨acc.length + 1, c.id, b, c.score⟩ : RedditComment)]).map
              (fun c => c.rank) = List.range' 1 (acc.length + 1) := by
            rw [List.map_append, h, List.range'_1_concat]
            simp [Nat.add_comm]
          have := ih (acc ++ [(⟨acc.length + 1, c.id, b, c.score⟩ : RedditComment)])
            (by rw [hmap, hlen])
          rw [hlen] at this
          exact this

theorem scrapeGo_results (cfg : ScrapeConfig) (commentEnv : String → Except String CommentResponse)
    (n : Nat) (posts : List RedditPost) :
    ∀ (i totalComments : Nat),
      (scrapeGo cfg commentEnv n posts i totalComments).2.1 =
        posts.filterMap (fun p => (okCommentsOpt commentEnv cfg.commentsPerPost p).map
          (fun cs => shapeRecord cfg.exportMode p cs)) := by
  induction posts with
  | nil => intro i t; simp [scrapeGo]
  | cons p rest ih =>
    intro i t
    rw [scrapeGo]
    match hcf : fetchComments (commentEnv p.permalink) cfg.commentsPerPost with
    | .error e => simp [List.filterMap_cons, okCommentsOpt, hcf, ih]
    | .ok comments => simp [List.filterMap_cons, okCommentsOpt, hcf, ih]

theorem scrapeGo_total (cfg : ScrapeConfig) (commentEnv : String → Except String CommentResponse)
    (n : Nat) (posts : List RedditPost) :
    ∀ (i totalComments : Nat),
      (scrapeGo cfg commentEnv n posts i totalComments).2.2 =
        totalComments +
          ((posts.filterMap (okCommentsOpt commentEnv cfg.commentsPerPost)).map
            List.length).sum := by
  induction posts with
  | nil => intro i t; simp [scrapeGo]
  | cons p rest ih =>
    intro i t
    rw [scrapeGo]
    match hcf : fetchComments (commentEnv p.permalink) cfg.commentsPerPost with
    | .error e => simp [List.filterMap_cons, okCommentsOpt, hcf, ih]
    | .ok comments =>
      simp [List.filterMap_cons, okCommentsOpt, hcf, ih]
      omega

theorem scrapeGo_pvs (cfg : ScrapeConfig) (commentEnv : String → Except String CommentResponse)
    (n : Nat) (posts : List RedditPost) :
    ∀ (i totalComments : Nat),
      progressFoundVals (scrapeGo cfg commentEnv n posts i totalComments).1 =
        List.replicate posts.length n := by
  induction posts with
  | nil => intro i t; simp [scrapeGo, progressFoundVals, sseEvents]
  | cons p rest ih =>
    intro i t
    rw [scrapeGo]
    match hcf : fetchComments (commentEnv p.permalink) cfg.commentsPerPost with
    | .error e =>
      dsimp only
      rw [progressFoundVals_eq, sseEvents_cons_sse]
      simp only [progressValsE, List.filterMap_cons, progressFound]
      rw [← progressValsE, ← progressFoundVals_eq, ih]
      simp [List.replicate_succ]
    | .ok comments =>
      dsimp only
      rw [progressFoundVals_eq, sseEvents_cons_sse, sseEvents_cons_sleep]
      simp only [progressValsE, List.filterMap_cons, progressFound]
      rw [← progressValsE, ← progressFoundVals_eq, ih]
      simp [List.replicate_succ]

theorem scrapeGo_nonterminal (cfg : ScrapeConfig)
    (commentEnv : String → Except String CommentResponse) (n : Nat) (posts : List RedditPost) :
    ∀ (i totalComments : Nat),
      ∀ e ∈ sseEvents (scrapeGo cfg commentEnv n posts i totalComments).1,
        terminalEvent e = false := by
  induction posts with
  | nil => intro i t e he; simp [scrapeGo, sseEvents] at he
  | cons p rest ih =>
    intro i t e he
    rw [scrapeGo] at he
    cases hcf : fetchComments (commentEnv p.permalink) cfg.commentsPerPost with
    | error e2 =>
      rw [hcf] at he
      dsimp only at he
      rw [sseEvents_cons_sse] at he
      rcases List.mem_cons.1 he with he2 | he2
      · subst he2; rfl
      · exact ih (i + 1) t e he2
    | ok comments =>
      rw [hcf] at he
      dsimp only at he
      rw [sseEvents_cons_sse, sseEvents_cons_sleep] at he
      rcases List.mem_cons.1 he with he2 | he2
      · subst he2; rfl
      · exact ih (i + 1) (t + comments.length) e he2

theorem scrapeGo_sleeps (cfg : ScrapeConfig)
    (commentEnv : String → Except String CommentResponse) (n : Nat) (posts : List RedditPost) :
    ∀ (i totalComments : Nat),
      (scrapeGo cfg commentEnv n posts i totalComments).1.countP isSleepAction =
        posts.countP (fun p => (fetchComments (commentEnv p.permalink)
          cfg.commentsPerPost).isOk) := by
  induction posts with
  | nil => intro i t; simp [scrapeGo]
  | cons p rest ih =>
    intro i t
    rw [scrapeGo]
    match hcf : fetchComments (commentEnv p.permalink) cfg.commentsPerPost with
    | .error e =>
      rw [List.countP_cons]
      simp [List.countP_cons, isSleepAction, hcf, Except.isOk, Except.toBool, ih]
    | .ok comments =>
      rw [List.countP_cons]
      simp [List.countP_cons, isSleepAction, hcf, Except.isOk, Except.toBool, ih]

theorem scrapeHandler_error (cfg : ScrapeConfig) (pages : List (Except String Page))
    (commentEnv : String → Except String CommentResponse) (e : String)
    (hfp : (fetchPosts pages cfg.postCount cfg.skipPosts).2 = .error e) :
    scrapeHandler cfg pages commentEnv =
      initialProgress cfg :: (fetchPosts pages cfg.postCount cfg.skipPosts).1 ++
        [Action.sse (.error e)] := by
  unfold scrapeHandler
  dsimp only
  rw [hfp]

theorem scrapeHandler_empty (cfg : ScrapeConfig) (pages : List (Except String Page))
    (commentEnv : String → Except String CommentResponse)
    (hfp : (fetchPosts pages cfg.postCount cfg.skipPosts).2 = .ok []) :
    scrapeHandler cfg pages commentEnv =
      initialProgress cfg :: (fetchPosts pages cfg.postCount cfg.skipPosts).1 ++
        [Action.sse (.error "No text posts found in this subreddit.")] := by
  unfold scrapeHandler
  dsimp only
  rw [hfp]
  rfl

theorem scrapeHandler_ok (cfg : ScrapeConfig) (pages : List (Except String Page))
    (commentEnv : String → Except String CommentResponse) (posts : List RedditPost)
    (hfp : (fetchPosts pages cfg.postCount cfg.skipPosts).2 = .ok posts)
    (hne : posts ≠ []) :
    scrapeHandler cfg pages commentEnv =
      initialProgress cfg :: (fetchPosts pages cfg.postCount cfg.skipPosts).1 ++
        (scrapeGo cfg commentEnv posts.length posts 0 0).1 ++
        [Action.sse (.progress (some posts.length) (some posts.length)
           (some (scrapeGo cfg commentEnv posts.length posts 0 0).2.2) "Finalizing..."),
         Action.sse (.complete
           (if posts.length < cfg.postCount then
             "Complete! Found " ++ toString posts.length ++ " text posts (target was "
               ++ toString cfg.postCount ++ ")."
           else
             "Complete! Collected " ++ toString posts.length ++ " posts with "
               ++ toString (scrapeGo cfg commentEnv posts.length posts 0 0).2.2 ++ " comments.")
           (scrapeGo cfg commentEnv posts.length posts 0 0).2.1)] := by
  unfold scrapeHandler
  dsimp only
  rw [hfp]
  simp [hne]

theorem fetchPosts_ok_length (pages : List (Except String Page)) (t s : Nat)
    (l : List RedditPost) (h : (fetchPosts pages t s).2 = .ok l) : l.length ≤ t := by
  unfold fetchPosts at h
  dsimp only at h
  cases h2 : (fetchPostsGo (s + t) s pages 0 []).2 with
  | error e => rw [h2] at h; simp [Except.map] at h
  | ok a =>
    rw [h2] at h
    simp [Except.map] at h
    rw [← h]
    exact Nat.le_trans (List.length_take_le _ _) (Nat.le_refl _)

theorem initialProgress_eq (cfg : ScrapeConfig) :
    initialProgress cfg = Action.sse (initialProgressEvent cfg) := rfl

theorem fetchPosts_fst (pages : List (Except String Page)) (t s : Nat) :
    (fetchPosts pages t s).1 = (fetchPostsGo (s + t) s pages 0 []).1 := rfl

theorem fetchPosts_nonterminal (pages : List (Except String Page)) (t s : Nat) :
    ∀ e ∈ sseEvents (fetchPosts pages t s).1, terminalEvent e = false := by
  rw [fetchPosts_fst]
  exact fetchPostsGo_nonterminal (s + t) s pages 0 []

/-- Claim C1: after successful config validation, every run of the event
stream emits exactly one terminal event (`complete` xor `error`), it is the
last event of the stream, and in the `complete` case the data array holds at
most `postCount` records. -/
theorem scrape_stream_single_terminal (cfg : ScrapeConfig)
    (pages : List (Except String Page)) (commentEnv : String → Except String CommentResponse) :
    ∃ pre last, sseEvents (scrapeHandler cfg pages commentEnv) = pre ++ [last] ∧
      (∀ e ∈ pre, terminalEvent e = false) ∧ terminalEvent last = true ∧
      (∀ m data, last = Event.complete m data → data.length ≤ cfg.postCount) := by
  cases hfp : (fetchPosts pages cfg.postCount cfg.skipPosts).2 with
  | error e =>
    refine ⟨initialProgressEvent cfg ::
      sseEvents (fetchPosts pages cfg.postCount cfg.skipPosts).1, Event.error e, ?_, ?_, rfl, ?_⟩
    · rw [scrapeHandler_error cfg pages commentEnv e hfp, initialProgress_eq]
      simp [sseEvents, List.filterMap_append, List.filterMap_cons]
    · intro e2 he2
      rcases List.mem_cons.1 he2 with h | h
      · subst h; rfl
      · exact fetchPosts_nonterminal pages cfg.postCount cfg.skipPosts e2 h
    · intro m data h
      simp at h
  | ok posts =>
    by_cases hne : posts = []
    · subst hne
      refine ⟨initialProgressEvent cfg ::
        sseEvents (fetchPosts pages cfg.postCount cfg.skipPosts).1,
        Event.error "No text posts found in this subreddit.", ?_, ?_, rfl, ?_⟩
      · rw [scrapeHandler_empty cfg pages commentEnv hfp, initialProgress_eq]
        simp [sseEvents, List.filterMap_append, List.filterMap_cons]
      · intro e2 he2
        rcases List.mem_cons.1 he2 with h | h
        · subst h; rfl
        · exact fetchPosts_nonterminal pages cfg.postCount cfg.skipPosts e2 h
      · intro m data h
        simp at h
    · refine ⟨initialProgressEvent cfg ::
        (sseEvents (fetchPosts pages cfg.postCount cfg.skipPosts).1 ++
         sseEvents (scrapeGo cfg commentEnv posts.length posts 0 0).1 ++
         [Event.progress (some posts.length) (some posts.length)
           (some (scrapeGo cfg commentEnv posts.length posts 0 0).2.2) "Finalizing..."]),
        Event.complete
          (if posts.length < cfg.postCount then
            "Complete! Found " ++ toString posts.length ++ " text posts (target was "
              ++ toString cfg.postCount ++ ")."
          else
            "Complete! Collected " ++ toString posts.length ++ " posts with "
              ++ toString (scrapeGo cfg commentEnv posts.length posts 0 0).2.2 ++ " comments.")
          (scrapeGo cfg commentEnv posts.length posts 0 0).2.1, ?_, ?_, rfl, ?_⟩
      · rw [scrapeHandler_ok cfg pages commentEnv posts hfp hne, initialProgress_eq]
        simp [sseEvents, List.filterMap_append, List.filterMap_cons]
      · intro e2 he2
        rcases List.mem_cons.1 he2 with h | h
        · subst h; rfl
        · rcases List.mem_append.1 h with h2 | h2
          · rcases List.mem_append.1 h2 with h3 | h3
            · exact fetchPosts_nonterminal pages cfg.postCount cfg.skipPosts e2 h3
            · exact scrapeGo_nonterminal cfg commentEnv posts.length posts 0 0 e2 h3
          · rcases List.mem_singleton.1 h2 with h3
            subst h3; rfl
      · intro m data h
        have hdata : data = (scrapeGo cfg commentEnv posts.length posts 0 0).2.1 := by
          cases h
          rfl
        subst hdata
        rw [scrapeGo_results]
        exact Nat.le_trans (List.length_filterMap_le _ _)
          (fetchPosts_ok_length pages cfg.postCount cfg.skipPosts posts hfp)

theorem fetchPosts_spec (pages : List (Except String Page)) (t s : Nat) :
    ∃ n, n ≤ s + t ∧
      progressFoundVals (fetchPosts pages t s).1 =
        (List.range' 1 n).map (fun i => i - s) ∧
      ∀ l, (fetchPosts pages t s).2 = .ok l → l.length = min t (n - s) := by
  obtain ⟨n, hn0, hnb, hpv, hok⟩ := fetchPostsGo_spec (s + t) s pages 0 []
  simp only [List.length_nil, Nat.max_eq_left (Nat.zero_le _), Nat.zero_add, Nat.sub_zero] at hnb hpv hok
  refine ⟨n, hnb, hpv, ?_⟩
  intro l hl
  unfold fetchPosts at hl
  dsimp only at hl
  cases h2 : (fetchPostsGo (s + t) s pages 0 []).2 with
  | error e => rw [h2] at hl; simp [Except.map] at hl
  | ok a =>
    rw [h2] at hl
    simp only [Except.map, Except.ok.injEq] at hl
    have ha := hok a h2
    rw [← hl]
    simp [List.length_take, List.length_drop, ha]

/-- Shape of the progress-value sequence of one full run: the initial zero,
one value per post accumulated by the collector (zero in the skip window,
then the count past the skip), and a constant tail from the per-post loop. -/
theorem scrapeHandler_pvs (cfg : ScrapeConfig) (pages : List (Except String Page))
    (commentEnv : String → Except String CommentResponse) :
    ∃ n m, n ≤ cfg.skipPosts + cfg.postCount ∧
      progressFoundVals (scrapeHandler cfg pages commentEnv) =
        0 :: ((List.range' 1 n).map (fun i => i - cfg.skipPosts) ++
          List.replicate m (n - cfg.skipPosts)) := by
  obtain ⟨n, hn, hpv, hok⟩ := fetchPosts_spec pages cfg.postCount cfg.skipPosts
  cases hfp : (fetchPosts pages cfg.postCount cfg.skipPosts).2 with
  | error e =>
    refine ⟨n, 0, hn, ?_⟩
    rw [scrapeHandler_error cfg pages commentEnv e hfp, initialProgress_eq]
    rw [List.cons_append, progressFoundVals_eq, sseEvents_cons_sse, sseEvents_append]
    simp only [progressValsE, List.filterMap_cons, List.filterMap_append, initialProgressEvent,
      progressFound, sseEvents, List.filterMap_nil, List.replicate_zero, List.append_nil]
    rw [← sseEvents, ← progressValsE, ← progressFoundVals_eq, hpv]
  | ok posts =>
    by_cases hne : posts = []
    · subst hne
      refine ⟨n, 0, hn, ?_⟩
      rw [scrapeHandler_empty cfg pages commentEnv hfp, initialProgress_eq]
      rw [List.cons_append, progressFoundVals_eq, sseEvents_cons_sse, sseEvents_append]
      simp only [progressValsE, List.filterMap_cons, List.filterMap_append, initialProgressEvent,
        progressFound, sseEvents, List.filterMap_nil, List.replicate_zero, List.append_nil]
      rw [← sseEvents, ← progressValsE, ← progressFoundVals_eq, hpv]
    · refine ⟨n, posts.length + 1, hn, ?_⟩
      have hlen := hok posts hfp
      have hlen2 : posts.length = n - cfg.skipPosts := by omega
      rw [scrapeHandler_ok cfg pages commentEnv posts hfp hne]
      have h1 : initialProgress cfg :: (fetchPosts pages cfg.postCount cfg.skipPosts).1 =
          [initialProgress cfg] ++ (fetchPosts pages cfg.postCount cfg.skipPosts).1 := rfl
      rw [h1, progressFoundVals_append, progressFoundVals_append, progressFoundVals_append]
      rw [hpv, scrapeGo_pvs]
      have h2 : progressFoundVals [initialProgress cfg] = [0] := by
        simp [progressFoundVals, sseEvents, initialProgress, progressFound]
      have h4 : progressFoundVals [Action.sse (Event.progress (some posts.length)
          (some posts.length) (some (scrapeGo cfg commentEnv posts.length posts 0 0).2.2)
          "Finalizing..."),
        Action.sse (Event.complete
          (if posts.length < cfg.postCount then
            "Complete! Found " ++ toString posts.length ++ " text posts (target was "
              ++ toString cfg.postCount ++ ")."
          else
            "Complete! Collected " ++ toString posts.length ++ " posts with "
              ++ toString (scrapeGo cfg commentEnv posts.length posts 0 0).2.2 ++ " comments.")
          (scrapeGo cfg commentEnv posts.length posts 0 0).2.1)] = [posts.length] := by
        simp [progressFoundVals, sseEvents, progressFound]
      rw [h2, h4, hlen2]
      simp [List.replicate_succ', List.append_assoc]

/-- Claim C10: across one run, the progress events' postsFound values are
non-decreasing, never exceed the configured post count, and every progress
event emitted while still inside the skip window carries zero. -/
theorem progress_stream_invariant (cfg : ScrapeConfig) (pages : List (Except String Page))
    (commentEnv : String → Except String CommentResponse) :
    (progressFoundVals (scrapeHandler cfg pages commentEnv)).Pairwise (· ≤ ·) ∧
    (∀ v ∈ progressFoundVals (scrapeHandler cfg pages commentEnv), v ≤ cfg.postCount) ∧
    (∀ i, i ≤ cfg.skipPosts →
      ∀ h : i < (progressFoundVals (scrapeHandler cfg pages commentEnv)).length,
      (progressFoundVals (scrapeHandler cfg pages commentEnv)).get ⟨i, h⟩ = 0) := by
  obtain ⟨n, m, hn, hpvs⟩ := scrapeHandler_pvs cfg pages commentEnv
  rw [hpvs]
  refine ⟨?_, ?_, ?_⟩
  · apply List.Pairwise.cons
    · intro y _
      exact Nat.zero_le y
    · apply List.pairwise_append.2
      refine ⟨?_, ?_, ?_⟩
      · rw [List.pairwise_map]
        exact (List.pairwise_le_range' 1 n).imp (fun hab => Nat.sub_le_sub_right hab _)
      · rw [List.pairwise_replicate]
        exact Or.inr (Nat.le_refl _)
      · intro x hx y hy
        rcases List.mem_map.1 hx with ⟨i, hi, rfl⟩
        rw [List.eq_of_mem_replicate hy]
        have hm := List.mem_range'_1.1 hi
        exact Nat.sub_le_sub_right (by omega) _
  · intro v hv
    rcases List.mem_cons.1 hv with rfl | hv2
    · exact Nat.zero_le _
    · rcases List.mem_append.1 hv2 with hv3 | hv3
      · rcases List.mem_map.1 hv3 with ⟨i, hi, rfl⟩
        have hm := List.mem_range'_1.1 hi
        omega
      · rw [List.eq_of_mem_replicate hv3]
        omega
  · intro i hi h
    cases i with
    | zero => rfl
    | succ j =>
      simp only [List.get_eq_getElem, List.getElem_cons_succ]
      have hlen : j < (((List.range' 1 n).map (fun i => i - cfg.skipPosts)) ++
          List.replicate m (n - cfg.skipPosts)).length := by
        simp only [List.length_cons, List.length_append] at h ⊢
        omega
      by_cases hj : j < ((List.range' 1 n).map (fun i => i - cfg.skipPosts)).length
      · rw [List.getElem_append_left hj]
        simp only [List.getElem_map, List.getElem_range'_1]
        omega
      · rw [List.getElem_append_right (by omega)]
        simp only [List.getElem_replicate]
        simp only [List.length_map, List.length_range'] at hj
        omega

/-- Claim C2 as stated is violated by the 100-page-fetch cap: a chain of 101
one-post pages holds 101 qualifying posts, yet with skip 0 and target 101 the
collector returns only 100 posts. -/
theorem fetchPosts_target_iff_counterexample :
    ∃ l, (fetchPosts cappedPages 101 0).2 = .ok l ∧ l.length ≠ 101 ∧
      101 ≤ (qualifyingPosts cappedPages).length :=
  ⟨_, rfl, by decide, by decide⟩

/-- Claim C2 (amended with the cap): for listings reachable inside the
100-page-fetch cap, with non-empty pages and a positive target, fetchPosts
returns the qualifying posts sliced from skipCount to skipCount+targetCount;
hence at most targetCount posts, and exactly targetCount iff the listing holds
at least skipCount+targetCount qualifying posts. -/
theorem fetchPosts_slice_spec (pages : List (Except String Page)) (targetCount skipCount : Nat)
    (hok : ∀ p ∈ pages, pageOk p = true) (hcap : pages.length ≤ 100)
    (htarget : 1 ≤ targetCount) :
    (fetchPosts pages targetCount skipCount).2 =
      .ok (((qualifyingPosts pages).drop skipCount).take targetCount) ∧
    (((qualifyingPosts pages).drop skipCount).take targetCount).length ≤ targetCount ∧
    ((((qualifyingPosts pages).drop skipCount).take targetCount).length = targetCount ↔
      skipCount + targetCount ≤ (qualifyingPosts pages).length) := by
  have hwf := fetchPostsGo_wf (skipCount + targetCount) skipCount pages 0 [] hok
    (by simpa using hcap)
  refine ⟨?_, ?_, ?_⟩
  · unfold fetchPosts
    dsimp only
    rw [hwf]
    simp only [Except.map, List.nil_append, List.length_nil, Nat.sub_zero]
    rw [qualifyingPosts]
    congr 1
    rw [List.drop_take]
    have harith : skipCount + targetCount - skipCount = targetCount := by omega
    rw [harith, List.take_take, Nat.min_self]
  · simp [List.length_take]
  · simp only [List.length_take, List.length_drop]
    omega

/-- Claim C6: every post returned by the collector stems from a listing child
that the media filter rejects as media; media posts never reach the result. -/
theorem fetchPosts_nonmedia (pages : List (Except String Page)) (t s : Nat)
    (l : List RedditPost) (h : (fetchPosts pages t s).2 = .ok l) :
    ∀ p ∈ l, ∃ raw, raw ∈ allChildren pages ∧ isMediaPost raw = false ∧
      p = extractPost raw := by
  unfold fetchPosts at h
  dsimp only at h
  cases h2 : (fetchPostsGo (s + t) s pages 0 []).2 with
  | error e => rw [h2] at h; simp [Except.map] at h
  | ok a =>
    rw [h2] at h
    simp only [Except.map, Except.ok.injEq] at h
    intro p hp
    have hmem : p ∈ a := by
      rw [← h] at hp
      exact List.drop_subset _ _ (List.take_subset _ _ hp)
    rcases fetchPostsGo_mem (s + t) s pages 0 [] a h2 p hmem with hin | hgood
    · simp at hin
    · exact hgood

/-- Claim C4: a successful comment fetch returns at most `limit` comments,
never one with an empty, deleted or removed body; ranks are the contiguous
sequence 1..k; and the retained payloads are exactly the first `limit`
qualifying children, in source order. -/
theorem fetchComments_spec (fetched : Except String CommentResponse) (limit : Nat)
    (cs : List RedditComment) (h : fetchComments fetched limit = .ok cs) :
    cs.length ≤ limit ∧
    (∀ c ∈ cs, c.body ≠ "" ∧ c.body ≠ "[deleted]" ∧ c.body ≠ "[removed]") ∧
    cs.map (fun c => c.rank) = List.range' 1 cs.length ∧
    (∀ resp, fetched = .ok resp →
      cs.map commentPayload = ((respChildren resp).filterMap qualComment).take limit) := by
  cases fetched with
  | error e => simp [fetchComments] at h
  | ok resp =>
    have hcs : cs = commentLoop limit (respChildren resp) [] 1 := by
      cases resp with
      | nonArray =>
        simp only [fetchComments, Except.ok.injEq] at h
        rw [← h]
        simp [respChildren, commentLoop]
      | array segments =>
        match segments with
        | [] =>
          simp only [fetchComments, Except.ok.injEq] at h
          rw [← h]
          simp [respChildren, commentLoop]
        | [one] =>
          simp only [fetchComments, Except.ok.injEq] at h
          rw [← h]
          simp [respChildren, commentLoop]
        | first :: second :: rest =>
          simp only [fetchComments, Except.ok.injEq] at h
          rw [← h]
          simp [respChildren]
    have hpay : cs.map commentPayload =
        ((respChildren resp).filterMap qualComment).take limit := by
      rw [hcs]
      simpa using commentLoop_payload limit (respChildren resp) [] 1 (Nat.zero_le _)
    refine ⟨?_, ?_, ?_, ?_⟩
    · have := congrArg List.length hpay
      simp only [List.length_map, List.length_take] at this
      omega
    · intro c hc
      have hmem : commentPayload c ∈ cs.map commentPayload := List.mem_map_of_mem _ hc
      rw [hpay] at hmem
      have hmem2 := List.take_subset _ _ hmem
      rcases List.mem_filterMap.1 hmem2 with ⟨rc, _, hq⟩
      unfold qualComment at hq
      cases hb : rc.body with
      | none => rw [hb] at hq; simp at hq
      | some b =>
        rw [hb] at hq
        dsimp only at hq
        by_cases hbad : (b == "" || b == "[deleted]" || b == "[removed]") = true
        · rw [if_pos hbad] at hq; simp at hq
        · rw [if_neg hbad] at hq
          simp only [Option.some.injEq] at hq
          have hbody : b = c.body := by
            have := congrArg (fun x => x.2.1) hq
            simpa [commentPayload] using this
          simp only [Bool.or_eq_true, beq_iff_eq, not_or] at hbad
          rw [← hbody]
          rcases hbad with ⟨⟨h1, h2⟩, h3⟩
          exact ⟨h1, h2, h3⟩
    · rw [hcs]
      have := commentLoop_ranks limit (respChildren resp) [] (by simp)
      simpa using this
    · intro resp2 hresp2
      have : resp2 = resp := by
        injection hresp2.symm
      rw [this]
      exact hpay

/-- Claim C8: a response lacking the comment-listing segment yields the empty
sequence rather than an error, and fetchComments fails exactly when the
underlying fetch failed. -/
theorem fetchComments_structure (fetched : Except String CommentResponse) (limit : Nat) :
    (∀ resp, fetched = .ok resp → lacksCommentListing resp = true →
      fetchComments fetched limit = .ok []) ∧
    (∀ e, fetchComments fetched limit = .error e ↔ fetched = .error e) := by
  constructor
  · intro resp hresp hshape
    subst hresp
    cases resp with
    | nonArray => rfl
    | array segments =>
      match segments with
      | [] => rfl
      | [one] => rfl
      | first :: second :: rest =>
        simp only [lacksCommentListing, List.length_cons, decide_eq_true_eq] at hshape
        omega
  · intro e
    cases fetched with
    | error e2 => simp [fetchComments]
    | ok resp =>
      cases resp with
      | nonArray => simp [fetchComments]
      | array segments =>
        match segments with
        | [] => simp [fetchComments]
        | [one] => simp [fetchComments]
        | first :: second :: rest => simp [fetchComments]

/-- Claim C3 as stated is violated: the dynamically numbered keys of a flat
record are "Kommentar N", not "Comment N". -/
theorem flat_keys_counterexample :
    flatKeys (flatShape samplePost [sampleComment]) = ["Post", "Kommentar 1"] ∧
    ("Kommentar 1" : String) ≠ "Comment 1" := by
  constructor
  · rfl
  · decide

theorem enumFrom_kommentar_keys (l : List RedditComment) :
    ∀ k : Nat, (List.enumFrom k l).map (fun ic => "Kommentar " ++ toString (ic.1 + 1)) =
      (List.range' (k + 1) l.length).map (fun j => "Kommentar " ++ toString j) := by
  induction l with
  | nil => intro k; simp [List.enumFrom]
  | cons c rest ih =>
    intro k
    rw [List.length_cons, List.range'_succ]
    simp only [List.enumFrom, List.map_cons]
    rw [ih (k + 1)]

theorem enumFrom_body_vals (l : List RedditComment) :
    ∀ k : Nat, (List.enumFrom k l).map (fun ic => ic.2.body) = l.map (fun c => c.body) := by
  induction l with
  | nil => intro k; simp [List.enumFrom]
  | cons c rest ih =>
    intro k
    simp only [List.enumFrom, List.map_cons]
    rw [ih (k + 1)]

/-- Claim C3 (amended): the flat record has the fixed "Post" key, whose value
is the title when the body is empty and title, blank line, body otherwise,
followed by one dynamically numbered "Kommentar N" key per comment in comment
order, N running 1..length. -/
theorem flat_record_shape (post : RedditPost) (comments : List RedditComment) :
    (flatShape post comments).post =
      (if post.selftext = "" then post.title else post.title ++ "\n\n" ++ post.selftext) ∧
    flatKeys (flatShape post comments) =
      "Post" :: (List.range' 1 comments.length).map (fun k => "Kommentar " ++ toString k) ∧
    (flatShape post comments).kommentare.map Prod.snd = comments.map (fun c => c.body) := by
  refine ⟨rfl, ?_, ?_⟩
  · rw [flatKeys]
    simp only [flatShape, List.map_map]
    have : List.enum comments = List.enumFrom 0 comments := rfl
    rw [this]
    have := enumFrom_kommentar_keys comments 0
    simp only [Nat.zero_add] at this
    rw [← this]
    rfl
  · simp only [flatShape, List.map_map]
    have : List.enum comments = List.enumFrom 0 comments := rfl
    rw [this]
    have := enumFrom_body_vals comments 0
    rw [← this]
    rfl

/-- Claim C5 as stated is violated: in a run whose single post's comment fetch
fails, the loop performs no delay at all — the failing iteration skips the
sleep because the delay sits inside the try block, after the successful path. -/
theorem delay_on_failure_counterexample :
    (fetchPosts failPages 1 0).2 = .ok [extractPost sampleTextPost] ∧
    fetchComments (failCommentEnv (extractPost sampleTextPost).permalink)
      failCfg.commentsPerPost = .error "Reddit API error: 403" ∧
    (scrapeHandler failCfg failPages failCommentEnv).countP isSleepAction = 0 := by
  refine ⟨rfl, rfl, rfl⟩

/-- Claim C5 (amended): in the per-post loop the fixed delay is incurred
exactly once per post whose comment fetch succeeds; iterations whose fetch
fails skip the delay and continue. -/
theorem loop_delay_iff_success (cfg : ScrapeConfig)
    (commentEnv : String → Except String CommentResponse) (posts : List RedditPost) :
    (scrapeGo cfg commentEnv posts.length posts 0 0).1.countP isSleepAction =
      posts.countP (fun p =>
        (fetchComments (commentEnv p.permalink) cfg.commentsPerPost).isOk) :=
  scrapeGo_sleeps cfg commentEnv posts.length posts 0 0

/-- Claim C7: when the collector succeeds, per-post comment failures are
swallowed: the run still ends in one complete event whose data holds exactly
one shaped record per successfully fetched post, and the final
commentsCollected total sums the successful posts' comment counts only. -/
theorem partial_comment_failure (cfg : ScrapeConfig) (pages : List (Except String Page))
    (commentEnv : String → Except String CommentResponse) (posts : List RedditPost)
    (hfp : (fetchPosts pages cfg.postCount cfg.skipPosts).2 = .ok posts)
    (hne : posts ≠ []) :
    ∃ m pre, sseEvents (scrapeHandler cfg pages commentEnv) =
      pre ++
        [Event.progress (some posts.length) (some posts.length)
          (some (((posts.filterMap (okCommentsOpt commentEnv cfg.commentsPerPost)).map
            List.length).sum)) "Finalizing...",
         Event.complete m (posts.filterMap (fun p =>
           (okCommentsOpt commentEnv cfg.commentsPerPost p).map
             (fun cs => shapeRecord cfg.exportMode p cs)))] := by
  refine ⟨if posts.length < cfg.postCount then
      "Complete! Found " ++ toString posts.length ++ " text posts (target was "
        ++ toString cfg.postCount ++ ")."
    else
      "Complete! Collected " ++ toString posts.length ++ " posts with "
        ++ toString (scrapeGo cfg commentEnv posts.length posts 0 0).2.2 ++ " comments.",
    initialProgressEvent cfg :: (sseEvents (fetchPosts pages cfg.postCount cfg.skipPosts).1 ++
      sseEvents (scrapeGo cfg commentEnv posts.length posts 0 0).1), ?_⟩
  rw [scrapeHandler_ok cfg pages commentEnv posts hfp hne, initialProgress_eq]
  have hres := scrapeGo_results cfg commentEnv posts.length posts 0 0
  have htot := scrapeGo_total cfg commentEnv posts.length posts 0 0
  simp only [Nat.zero_add] at htot
  rw [← hres, ← htot]
  simp [sseEvents, List.filterMap_append, List.filterMap_cons]

theorem tryHostGo_eq (host : Nat → FetchOutcome) (attempt left : Nat) :
    tryHostGo host attempt left =
      match host attempt with
      | .ok v => ([attempt], .ok v)
      | .httpStatus status =>
        if status = 429 then
          match left with
          | 0 => ([attempt], .error rateLimitedMsg)
          | left' + 1 =>
            let r := tryHostGo host (attempt + 1) left'
            (attempt :: r.1, r.2)
        else if status = 403 then ([attempt], .error blockedMsg)
        else ([attempt], .error (apiErrorMsg status))
      | .netErr m =>
        if mentionsReddit m then ([attempt], .error m)
        else
          match left with
          | 0 => ([attempt], .error m)
          | left' + 1 =>
            let r := tryHostGo host (attempt + 1) left'
            (attempt :: r.1, r.2) := by
  cases ho : host attempt <;> rw [← ho] <;> cases left <;> (conv_lhs => rw [tryHostGo])

theorem tryHostGo_head (host : Nat → FetchOutcome) :
    ∀ (left attempt : Nat), attempt ∈ (tryHostGo host attempt left).1 := by
  intro left attempt
  rw [tryHostGo_eq]
  cases ho : host attempt with
  | ok v => simp
  | httpStatus status =>
    by_cases h429 : status = 429
    · simp only [h429, if_pos, ite_true]
      cases left with
      | zero => simp
      | succ left2 => simp
    · by_cases h403 : status = 403
      · simp [h429, h403]
      · simp [h429, h403]
  | netErr m =>
    by_cases hmr : mentionsReddit m = true
    · simp [hmr]
    · simp only [hmr, Bool.false_eq_true, ite_false, if_neg]
      cases left with
      | zero => simp
      | succ left2 => simp

theorem tryHostGo_mem_ge (host : Nat → FetchOutcome) :
    ∀ (left attempt : Nat), ∀ a ∈ (tryHostGo host attempt left).1, attempt ≤ a := by
  intro left
  induction left with
  | zero =>
    intro attempt a ha
    rw [tryHostGo_eq] at ha
    cases ho : host attempt with
    | ok v => rw [ho] at ha; simp at ha; omega
    | httpStatus status =>
      rw [ho] at ha
      dsimp only at ha
      by_cases h429 : status = 429
      · simp [h429] at ha; omega
      · by_cases h403 : status = 403
        · simp [h429, h403] at ha; omega
        · simp [h429, h403] at ha; omega
    | netErr m =>
      rw [ho] at ha
      dsimp only at ha
      by_cases hmr : mentionsReddit m = true
      · simp [hmr] at ha; omega
      · simp [hmr] at ha; omega
  | succ left2 ih =>
    intro attempt a ha
    rw [tryHostGo_eq] at ha
    cases ho : host attempt with
    | ok v => rw [ho] at ha; simp at ha; omega
    | httpStatus status =>
      rw [ho] at ha
      dsimp only at ha
      by_cases h429 : status = 429
      · simp only [h429, if_pos, ite_true, List.mem_cons] at ha
        rcases ha with rfl | ha
        · exact Nat.le_refl a
        · exact Nat.le_trans (Nat.le_succ attempt) (ih (attempt + 1) a ha)
      · by_cases h403 : status = 403
        · simp [h429, h403] at ha; omega
        · simp [h429, h403] at ha; omega
    | netErr m =>
      rw [ho] at ha
      dsimp only at ha
      by_cases hmr : mentionsReddit m = true
      · simp [hmr] at ha; omega
      · simp only [hmr, Bool.false_eq_true, ite_false, if_neg, List.mem_cons] at ha
        rcases ha with rfl | ha
        · exact Nat.le_refl a
        · exact Nat.le_trans (Nat.le_succ attempt) (ih (attempt + 1) a ha)

theorem tryHostGo_blocked (host : Nat → FetchOutcome) :
    ∀ (left attempt j : Nat), j ∈ (tryHostGo host attempt left).1 →
      host j = .httpStatus 403 →
      (tryHostGo host attempt left).2 = .error blockedMsg ∧
        ∀ k, j < k → k ∉ (tryHostGo host attempt left).1 := by
  intro left
  induction left with
  | zero =>
    intro attempt j hj h403
    rw [tryHostGo_eq] at hj ⊢
    cases ho : host attempt with
    | ok v =>
      rw [ho] at hj
      dsimp only at hj ⊢
      simp at hj
      subst hj
      rw [ho] at h403
      simp at h403
    | httpStatus status =>
      rw [ho] at hj
      dsimp only at hj ⊢
      by_cases h429 : status = 429
      · simp only [h429, if_pos, ite_true] at hj ⊢
        simp at hj
        subst hj
        rw [ho] at h403
        simp [h429] at h403
      · by_cases h403s : status = 403
        · simp only [h429, Bool.false_eq_true, ite_false, if_neg, h403s, if_pos,
            ite_true] at hj ⊢
          exact ⟨rfl, by intro k hk hkmem; simp at hj hkmem; omega⟩
        · simp [h429, h403s] at hj
          subst hj
          rw [ho] at h403
          simp [h403s] at h403
    | netErr m =>
      rw [ho] at hj
      dsimp only at hj ⊢
      by_cases hmr : mentionsReddit m = true
      · simp [hmr] at hj
        subst hj
        rw [ho] at h403
        simp at h403
      · simp [hmr] at hj
        subst hj
        rw [ho] at h403
        simp at h403
  | succ left2 ih =>
    intro attempt j hj h403
    rw [tryHostGo_eq] at hj ⊢
    cases ho : host attempt with
    | ok v =>
      rw [ho] at hj
      dsimp only at hj ⊢
      simp at hj
      subst hj
      rw [ho] at h403
      simp at h403
    | httpStatus status =>
      rw [ho] at hj
      dsimp only at hj ⊢
      by_cases h429 : status = 429
      · simp only [h429, if_pos, ite_true, List.mem_cons] at hj ⊢
        rcases hj with rfl | hj
        · rw [ho] at h403
          simp [h429] at h403
        · rcases ih (attempt + 1) j hj h403 with ⟨hres, hnone⟩
          refine ⟨hres, ?_⟩
          intro k hk hkmem
          rcases hkmem with hker | hkmem2
          · have hge := tryHostGo_mem_ge host left2 (attempt + 1) j hj
            omega
          · exact hnone k hk hkmem2
      · by_cases h403s : status = 403
        · simp only [h429, Bool.false_eq_true, ite_false, if_neg, h403s, if_pos,
            ite_true] at hj ⊢
          exact ⟨rfl, by intro k hk hkmem; simp at hj hkmem; omega⟩
        · simp [h429, h403s] at hj
          subst hj
          rw [ho] at h403
          simp [h403s] at h403
    | netErr m =>
      rw [ho] at hj
      dsimp only at hj ⊢
      by_cases hmr : mentionsReddit m = true
      · simp [hmr] at hj
        subst hj
        rw [ho] at h403
        simp at h403
      · simp only [hmr, Bool.false_eq_true, ite_false, if_neg, List.mem_cons] at hj ⊢
        rcases hj with rfl | hj
        · rw [ho] at h403
          simp at h403
        · rcases ih (attempt + 1) j hj h403 with ⟨hres, hnone⟩
          refine ⟨hres, ?_⟩
          intro k hk hkmem
          rcases hkmem with hker | hkmem2
          · have hge := tryHostGo_mem_ge host left2 (attempt + 1) j hj
            omega
          · exact hnone k hk hkmem2

/-- Claim C9: once a host answers HTTP 403, no further attempt is made against
that host; the fallback host is still tried, and when it is also blocked the
whole call fails with the Blocked error — only after both hosts were tried. -/
theorem blocked_no_retry_with_fallback (hostA hostB : Nat → FetchOutcome) (retries j : Nat)
    (hj : (0, j) ∈ (fetchRedditJSON hostA hostB retries).1)
    (h403 : hostA j = .httpStatus 403) :
    (∀ k, j < k → (0, k) ∉ (fetchRedditJSON hostA hostB retries).1) ∧
    (1, 0) ∈ (fetchRedditJSON hostA hostB retries).1 ∧
    (∀ j2, (1, j2) ∈ (fetchRedditJSON hostA hostB retries).1 →
      hostB j2 = .httpStatus 403 →
      (fetchRedditJSON hostA hostB retries).2 = .error blockedMsg) := by
  unfold fetchRedditJSON
  dsimp only
  have hjA : j ∈ (tryHostGo hostA 0 retries).1 := by
    unfold fetchRedditJSON at hj
    dsimp only at hj
    cases hra : (tryHostGo hostA 0 retries).2 with
    | ok v =>
      rw [hra] at hj
      dsimp only at hj
      rcases List.mem_map.1 hj with ⟨a, ha, he⟩
      cases he
      exact ha
    | error e =>
      rw [hra] at hj
      dsimp only at hj
      rcases List.mem_append.1 hj with h | h
      · rcases List.mem_map.1 h with ⟨a, ha, he⟩
        cases he
        exact ha
      · rcases List.mem_map.1 h with ⟨a, _, he⟩
        cases he
  obtain ⟨hAres, hAnone⟩ := tryHostGo_blocked hostA retries 0 j hjA h403
  rw [hAres]
  dsimp only
  refine ⟨?_, ?_, ?_⟩
  · intro k hk hkmem
    rcases List.mem_append.1 hkmem with h | h
    · rcases List.mem_map.1 h with ⟨a, ha, he⟩
      injection he with h1 h2
      rw [h2] at ha
      exact hAnone k hk ha
    · rcases List.mem_map.1 h with ⟨a, _, he⟩
      injection he with h1 h2
      exact absurd h1 one_ne_zero
  · apply List.mem_append.2
    right
    exact List.mem_map.2 ⟨0, tryHostGo_head hostB retries 0, rfl⟩
  · intro j2 hj2 h403B
    have hj2B : j2 ∈ (tryHostGo hostB 0 retries).1 := by
      rcases List.mem_append.1 hj2 with h | h
      · rcases List.mem_map.1 h with ⟨a, _, he⟩
        injection he with h1 h2
        exact absurd h1 zero_ne_one
      · rcases List.mem_map.1 h with ⟨a, ha, he⟩
        injection he with h1 h2
        rw [h2] at ha
        exact ha
    exact (tryHostGo_blocked hostB retries 0 j2 hj2B h403B).1

theorem scrape_stream_single_terminal_witness :
    ∃ pre last, sseEvents (scrapeHandler
        { subreddit := "x", postCount := 2, skipPosts := 1, commentsPerPost := 2,
          sortBy := "top", exportMode := .clean } witnessPages
        (fun _ => .ok sampleResponse)) = pre ++ [last] ∧
      (∀ e ∈ pre, terminalEvent e = false) ∧ terminalEvent last = true ∧
      (∀ m data, last = Event.complete m data → data.length ≤ 2) :=
  scrape_stream_single_terminal _ witnessPages (fun _ => .ok sampleResponse)

theorem fetchPosts_slice_spec_witness :
    (∀ p ∈ witnessPages, pageOk p = true) ∧ witnessPages.length ≤ 100 ∧
    ((fetchPosts witnessPages 2 1).2 =
        .ok (((qualifyingPosts witnessPages).drop 1).take 2) ∧
      (((qualifyingPosts witnessPages).drop 1).take 2).length ≤ 2 ∧
      ((((qualifyingPosts witnessPages).drop 1).take 2).length = 2 ↔
        1 + 2 ≤ (qualifyingPosts witnessPages).length)) :=
  ⟨by decide, by decide,
    fetchPosts_slice_spec witnessPages 2 1 (by decide) (by decide) (by decide)⟩

theorem flat_record_shape_witness :
    (flatShape samplePost [sampleComment]).post =
      (if samplePost.selftext = "" then samplePost.title
       else samplePost.title ++ "\n\n" ++ samplePost.selftext) ∧
    flatKeys (flatShape samplePost [sampleComment]) =
      "Post" :: (List.range' 1 1).map (fun k => "Kommentar " ++ toString k) ∧
    (flatShape samplePost [sampleComment]).kommentare.map Prod.snd =
      [sampleComment].map (fun c => c.body) :=
  flat_record_shape samplePost [sampleComment]

theorem fetchComments_spec_witness :
    fetchComments (.ok sampleResponse) 2 =
      .ok [⟨1, "c1", "hello", 5⟩, ⟨2, "c4", "world", 2⟩] ∧
    ([(⟨1, "c1", "hello", 5⟩ : RedditComment), ⟨2, "c4", "world", 2⟩].length ≤ 2 ∧
      (∀ c ∈ [(⟨1, "c1", "hello", 5⟩ : RedditComment), ⟨2, "c4", "world", 2⟩],
        c.body ≠ "" ∧ c.body ≠ "[deleted]" ∧ c.body ≠ "[removed]") ∧
      [(⟨1, "c1", "hello", 5⟩ : RedditComment), ⟨2, "c4", "world", 2⟩].map (fun c => c.rank) =
        List.range' 1 [(⟨1, "c1", "hello", 5⟩ : RedditComment), ⟨2, "c4", "world", 2⟩].length ∧
      (∀ resp, (Except.ok sampleResponse : Except String CommentResponse) = .ok resp →
        [(⟨1, "c1", "hello", 5⟩ : RedditComment), ⟨2, "c4", "world", 2⟩].map commentPayload =
          ((respChildren resp).filterMap qualComment).take 2)) :=
  ⟨by decide, fetchComments_spec (.ok sampleResponse) 2 _ (by decide)⟩

theorem loop_delay_iff_success_witness :
    (scrapeGo failCfg failCommentEnv 1 [extractPost sampleTextPost] 0 0).1.countP
        isSleepAction =
      [extractPost sampleTextPost].countP (fun p =>
        (fetchComments (failCommentEnv p.permalink) failCfg.commentsPerPost).isOk) := by
  have h := loop_delay_iff_success failCfg failCommentEnv [extractPost sampleTextPost]
  simpa using h

theorem fetchPosts_nonmedia_witness :
    ∃ raw, raw ∈ allChildren witnessPages ∧ isMediaPost raw = false ∧
      extractPost (textPost "b") = extractPost raw :=
  fetchPosts_nonmedia witnessPages 2 1
    [extractPost (textPost "b"), extractPost (textPost "c")] (by decide)
    (extractPost (textPost "b")) (by decide)

theorem partial_comment_failure_witness :
    ∃ m pre, sseEvents (scrapeHandler
        { subreddit := "x", postCount := 2, skipPosts := 0, commentsPerPost := 2,
          sortBy := "new", exportMode := .clean }
        [.ok ⟨[textPost "a", textPost "b"]⟩]
        (fun pl => if pl = "/r/x/a" then .error "Reddit API error: 403"
          else .ok sampleResponse)) =
      pre ++
        [Event.progress (some [extractPost (textPost "a"), extractPost (textPost "b")].length)
          (some [extractPost (textPost "a"), extractPost (textPost "b")].length)
          (some ((([extractPost (textPost "a"), extractPost (textPost "b")].filterMap
            (okCommentsOpt (fun pl => if pl = "/r/x/a" then .error "Reddit API error: 403"
              else .ok sampleResponse) 2)).map List.length).sum)) "Finalizing...",
         Event.complete m ([extractPost (textPost "a"), extractPost (textPost "b")].filterMap
           (fun p => (okCommentsOpt (fun pl => if pl = "/r/x/a" then .error "Reddit API error: 403"
               else .ok sampleResponse) 2 p).map
             (fun cs => shapeRecord .clean p cs)))] :=
  partial_comment_failure
    { subreddit := "x", postCount := 2, skipPosts := 0, commentsPerPost := 2,
      sortBy := "new", exportMode := .clean }
    [.ok ⟨[textPost "a", textPost "b"]⟩]
    (fun pl => if pl = "/r/x/a" then .error "Reddit API error: 403" else .ok sampleResponse)
    [extractPost (textPost "a"), extractPost (textPost "b")] (by decide) (by decide)

theorem fetchComments_structure_witness :
    fetchComments (.ok .nonArray) 3 = .ok [] ∧
    (fetchComments (.error "boom" : Except String CommentResponse) 3 = .error "boom" ↔
      (Except.error "boom" : Except String CommentResponse) = .error "boom") :=
  ⟨(fetchComments_structure (.ok .nonArray) 3).1 .nonArray rfl rfl,
   (fetchComments_structure (.error "boom") 3).2 "boom"⟩

theorem blocked_no_retry_with_fallback_witness :
    (∀ k, 0 < k → (0, k) ∉ (fetchRedditJSON (fun _ => .httpStatus 403)
      (fun _ => .httpStatus 403) 2).1) ∧
    (1, 0) ∈ (fetchRedditJSON (fun _ => .httpStatus 403) (fun _ => .httpStatus 403) 2).1 ∧
    (∀ j2, (1, j2) ∈ (fetchRedditJSON (fun _ => .httpStatus 403)
        (fun _ => .httpStatus 403) 2).1 →
      (fun _ => FetchOutcome.httpStatus 403 : Nat → FetchOutcome) j2 = .httpStatus 403 →
      (fetchRedditJSON (fun _ => .httpStatus 403) (fun _ => .httpStatus 403) 2).2 =
        .error blockedMsg) :=
  blocked_no_retry_with_fallback (fun _ => .httpStatus 403) (fun _ => .httpStatus 403) 2 0
    (by decide) rfl

theorem progress_stream_invariant_witness :
    (progressFoundVals (scrapeHandler
      { subreddit := "x", postCount := 1, skipPosts := 1, commentsPerPost := 2,
        sortBy := "top", exportMode := .clean } witnessPages
      (fun _ => .ok sampleResponse))).Pairwise (· ≤ ·) ∧
    (progressFoundVals (scrapeHandler
      { subreddit := "x", postCount := 1, skipPosts := 1, commentsPerPost := 2,
        sortBy := "top", exportMode := .clean } witnessPages
      (fun _ => .ok sampleResponse))).get ⟨1, by decide⟩ = 0 := by
  obtain ⟨h1, h2, h3⟩ := progress_stream_invariant
    { subreddit := "x", postCount := 1, skipPosts := 1, commentsPerPost := 2,
      sortBy := "top", exportMode := .clean } witnessPages (fun _ => .ok sampleResponse)
  exact ⟨h1, h3 1 (by decide) (by decide)⟩


end RedditScraper
